import Mathlib

/-!
The package errutil: merging slices of errors.

A shallow embedding of `slice.go` (package `errutil`) and theorems about it.

Go values are modelled as follows.

* `error` interface values are the inductive type `Err`: the nil interface, a leaf
  error, an error with an `Unwrap` method, and a `Multierr` value.
* `Slice` (`[]error`) is a list of `Err`; a nil slice and an empty slice are both `[]`.
* A method with a pointer receiver that mutates the slice returns the new contents.
* A call that would panic (calling `Error` on the nil interface) returns `none`.
* `xerrors.As`, `fmt.Sprintf`, `fmt.Fprint`, `fmt.Fprintf` and `strings.Join` are
  library functions outside the repository; the uses made of them are modelled below.
-/

namespace Errutil

/-! ## Data model -/

/-- Go `error` interface values.  `nil` is the nil interface; `plain` is an error value
with no `Unwrap` method; `wrap` is an error value whose `Unwrap` returns `inner`;
`multi s` is the struct value `Multierr{s}`.  The `id` distinguishes error values with
equal messages.  Error types that carry an `As` method of their own, and pointers to
`Multierr`, are not represented. -/
inductive Err where
  | nil : Err
  | plain (id : Nat) (msg : String) : Err
  | wrap (id : Nat) (msg : String) (inner : Err) : Err
  | multi (s : List Err) : Err

/-- The Go type `Slice`, a slice of errors. -/
abbrev Slice := List Err

/-- The Go struct `Multierr`, with its only field `s`. -/
structure Multierr where
  s : Slice

/-- A `Multierr` struct value stored in an `error` interface. -/
def Multierr.toErr (m : Multierr) : Err := Err.multi m.s

/-- The test `err == nil` on an interface value. -/
def Err.isNil : Err → Bool
  | .nil => true
  | _ => false

/-- The function `xerrors.Unwrap`: the result of the `Unwrap` method, or nil when the
value has none. -/
def Unwrap : Err → Err
  | .wrap _ _ inner => inner
  | _ => .nil

/-- The call `xerrors.As(err, s2)` with `s2 := new(Multierr)`: walks the `Unwrap` chain
of `err` and stops at the first value of dynamic type `Multierr`, which it stores in
`s2`.  The result is `some` of the stored value when `As` returns true. -/
def xerrorsAs : Err → Option Multierr
  | .nil => none
  | .plain _ _ => none
  | .wrap _ _ inner => xerrorsAs inner
  | .multi s => some ⟨s⟩

/-! ## Collector: `Push` and `Merge` -/

/-- The method `(*Slice).Push`; returns the new contents of the slice. -/
def Slice.Push (s : Slice) (err : Err) : Slice :=
  match xerrorsAs err with
  | some s2 => s ++ s2.s
  | none => if !err.isNil then s ++ [err] else s

/-- The method `(*Slice).Merge`; returns the returned error and the new contents of the
slice. -/
def Slice.Merge (s : Slice) : Err × Slice :=
  let errsFiltered : Slice := s.foldl Slice.Push []
  if errsFiltered.length < 1 then
    (Err.nil, errsFiltered)
  else if errsFiltered.length = 1 then
    (errsFiltered.getD 0 Err.nil, errsFiltered)
  else
    ((Multierr.mk errsFiltered).toErr, errsFiltered)

/-- The free function `Merge`. -/
def Merge (errs : List Err) : Err :=
  (Slice.Merge errs).1

/-! ## Aggregate: messages -/

/-- The method `Multierr.Slice`. -/
def Multierr.Slice (m : Multierr) : Slice := m.s

/-- The part of `Multierr.Error` after `a := m.Strings()`:
`fmt.Sprintf("%d error%s: %s", len(a), plural, strings.Join(a, "; "))`, or the sentinel
when `a` is empty. -/
def errorMessage (a : List String) : String :=
  if a.length = 0 then
    "<empty error slice>"
  else
    let plural := if a.length = 1 then "" else "s"
    toString a.length ++ " error" ++ plural ++ ": " ++ String.intercalate "; " a

mutual
/-- The method call `err.Error()` on an interface value: a panic (`none`) on the nil
interface, the own message of a leaf or wrapper, and `Multierr.Error` on an aggregate. -/
def Err.Error : Err → Option String
  | .nil => none
  | .plain _ msg => some msg
  | .wrap _ msg _ => some msg
  | .multi s =>
    match errorsToStringsLoop s s [] with
    | none => none
    | some a => some (errorMessage a)
/-- The loop of `errorsToStrings` over the remaining elements, with the accumulator `a`.
The guard `s != nil` tests the outer slice `s`; a slice the loop visits has an element,
so it is not nil. -/
def errorsToStringsLoop (s : List Err) : List Err → List String → Option (List String)
  | [], a => some a
  | err :: rest, a =>
    if !s.isEmpty then
      match Err.Error err with
      | none => none
      | some msg => errorsToStringsLoop s rest (a ++ [msg])
    else
      errorsToStringsLoop s rest a
end

/-- The function `errorsToStrings`. -/
def errorsToStrings (s : List Err) : Option (List String) :=
  errorsToStringsLoop s s []

/-- The method `Multierr.Strings`. -/
def Multierr.Strings (m : Multierr) : Option (List String) :=
  errorsToStrings m.s

/-- The method `Multierr.Error`. -/
def Multierr.Error (m : Multierr) : Option String :=
  match m.Strings with
  | none => none
  | some a => some (errorMessage a)

/-! ## Aggregate: `fmt.Formatter` -/

/-- The part of `fmt.State` that `Format` uses: the flags set and the bytes written. -/
structure State where
  flags : List Char
  out : String

/-- The method `state.Flag(c)`. -/
def State.Flag (state : State) (c : Char) : Bool := state.flags.contains c

/-- The effect of `fmt.Fprint(state, str)` for a string `str`. -/
def State.write (state : State) (str : String) : State :=
  ⟨state.flags, state.out ++ str⟩

/-- The loop `for i, err := range a` of `Format`, from index `i` on: each turn is
`fmt.Fprintf(state, "\terror %d: %s\n", i+1, err)`. -/
def formatLoop : List String → Nat → State → State
  | [], _, state => state
  | err :: rest, i, state =>
    formatLoop rest (i + 1) (state.write ("\terror " ++ toString (i + 1) ++ ": " ++ err ++ "\n"))

/-- The method `Multierr.Format`; `quote` stands for `fmt.Sprintf("%q", msg)` on a
string.  Returns the state after the writes. -/
def Multierr.Format (quote : String → String) (m : Multierr) (state : State) (verb : Char) :
    Option State :=
  if verb = 's' ∨ verb = 'q' ∨ verb = 'v' then
    if verb = 'v' ∧ state.Flag '+' = true then
      match m.Strings with
      | none => none
      | some a =>
        if a.length = 0 then
          some (state.write "<empty error slice>")
        else
          let plural := if a.length = 1 then "" else "s"
          some (formatLoop a 0 (state.write (toString a.length ++ " error" ++ plural ++ ":\n")))
    else
      match m.Error with
      | none => none
      | some msg => some (state.write (if verb = 'q' then quote msg else msg))
  else
    some state

/-! ## Vocabulary of the specification -/

/-- An aggregate: an error value of dynamic type `Multierr`. -/
def Err.isAggregate : Err → Bool
  | .multi _ => true
  | _ => false

/-- The unwrap chain of an error value: the value itself, then what `Unwrap` returns for
it, and so on until nil.  An aggregate has no `Unwrap` method, so a chain ends there. -/
def unwrapChain : Err → List Err
  | .nil => []
  | .plain id msg => [.plain id msg]
  | .wrap id msg inner => .wrap id msg inner :: unwrapChain inner
  | .multi s => [.multi s]

/-- The constituent sequence of the first aggregate found on the unwrap chain, when the
value is or wraps an aggregate. -/
def firstAggregate (e : Err) : Option (List Err) :=
  match (unwrapChain e).find? Err.isAggregate with
  | some (.multi r) => some r
  | _ => none

/-- A plain error: not nil, neither an aggregate nor a wrapper of one. -/
def IsPlain (e : Err) : Prop :=
  e.isNil = false ∧ (unwrapChain e).all (fun x => !x.isAggregate) = true

instance (e : Err) : Decidable (IsPlain e) := by
  unfold IsPlain; exact inferInstance

/-- The contribution of one element: nothing for nil, the constituent sequence for an
element that is or wraps an aggregate, the element itself otherwise. -/
def contribution (e : Err) : List Err :=
  if e.isNil then []
  else
    match firstAggregate e with
    | some r => r
    | none => [e]

/-- The filtered sequence: the contributions of the elements, concatenated in order. -/
def filtered (s : List Err) : List Err :=
  s.flatMap contribution

/-- The three return shapes of finalize on a filtered sequence. -/
def mergeShape : List Err → Err
  | [] => Err.nil
  | [e] => e
  | e₁ :: e₂ :: rest => Err.multi (e₁ :: e₂ :: rest)

/-- Every aggregate that an element of the collector is or wraps owns a sequence with no
nil in it. -/
def NilFreeAggregates (s : Slice) : Prop :=
  ∀ e ∈ s, ∀ r, firstAggregate e = some r → ∀ x ∈ r, x.isNil = false

/-- An aggregate produced by Merge: the value some call of Merge returned through its
last return statement, where two or more errors were left. -/
def MergeProduced (x : Err) : Prop :=
  ∃ l : List Err, 2 ≤ (Slice.Merge l).2.length ∧ x = (Slice.Merge l).1

/-- Error values whose aggregates, direct or wrapped, are the zero-value Multierr or
were produced by Merge from such values: nil, leaf errors, wrappers of such values, the
zero value, and what Merge returns on a list of such values. -/
inductive WellBuilt : Err → Prop
  | nil : WellBuilt Err.nil
  | plain (id : Nat) (msg : String) : WellBuilt (Err.plain id msg)
  | wrap (id : Nat) (msg : String) (inner : Err) :
      WellBuilt inner → WellBuilt (Err.wrap id msg inner)
  | zero : WellBuilt (Multierr.mk []).toErr
  | merged (l : List Err) : (∀ e ∈ l, WellBuilt e) → WellBuilt (Merge l)

/-- The messages of the errors of a sequence, in order, when every one of them has a
message; `none` when calling `Error` on one of them panics. -/
def messagesOf : List Err → Option (List String)
  | [] => some []
  | e :: rest =>
    match e.Error, messagesOf rest with
    | some msg, some ms => some (msg :: ms)
    | _, _ => none

/-- The expanded rendering of an aggregate with the messages `a`: the sentinel when there
is none; otherwise the header line, the count and " error:" or " errors:", followed by one
line per message, a tab, "error ", the index from 1, ": " and the message. -/
def expandedRendering (a : List String) : String :=
  if a = [] then
    "<empty error slice>"
  else
    toString a.length ++ (if a.length = 1 then " error:\n" else " errors:\n") ++
      ((a.enum.map (fun p => "\terror " ++ toString (p.1 + 1) ++ ": " ++ p.2 ++ "\n")).foldr
        (fun x y => x ++ y) "")

/-! ## Sample values -/

/-- A leaf error with message a. -/
abbrev errA : Err := Err.plain 1 "a"

/-- A leaf error with message b. -/
abbrev errB : Err := Err.plain 2 "b"

/-- A leaf error with message c. -/
abbrev errC : Err := Err.plain 3 "c"

/-- A leaf error with message x. -/
abbrev errX : Err := Err.plain 4 "x"

/-- A leaf error with message y. -/
abbrev errY : Err := Err.plain 5 "y"

/-- Go quoting of a string of printable ASCII characters with no quote and no backslash
in it: the string between two double quotes. -/
def quotePlain (q : String) : String :=
  String.singleton (Char.ofNat 34) ++ q ++ String.singleton (Char.ofNat 34)

/-! ## Lemmas on the chain walk and the collector -/

/-- The unwrap chain is the value followed by the chain of what `Unwrap` returns. -/
theorem unwrapChain_eq_cons_Unwrap (e : Err) (h : e.isNil = false) :
    unwrapChain e = e :: unwrapChain (Unwrap e) := by
  cases e <;> simp_all [unwrapChain, Unwrap, Err.isNil]

theorem firstAggregate_wrap (id : Nat) (msg : String) (inner : Err) :
    firstAggregate (.wrap id msg inner) = firstAggregate inner := by
  simp [firstAggregate, unwrapChain, List.find?, Err.isAggregate]

theorem xerrorsAs_eq_firstAggregate : ∀ e : Err,
    xerrorsAs e = (firstAggregate e).map Multierr.mk
  | .nil => rfl
  | .plain _ _ => rfl
  | .multi _ => rfl
  | .wrap id msg inner => by
    rw [firstAggregate_wrap, xerrorsAs, xerrorsAs_eq_firstAggregate inner]

theorem firstAggregate_nil : firstAggregate Err.nil = none := rfl

theorem Push_eq_append (s : Slice) (e : Err) :
    Slice.Push s e = s ++ contribution e := by
  unfold Slice.Push contribution
  rw [xerrorsAs_eq_firstAggregate]
  cases h : firstAggregate e with
  | none => cases hn : e.isNil <;> simp
  | some r =>
    cases hn : e.isNil with
    | false => simp
    | true =>
      cases e <;> simp [Err.isNil] at hn
      simp [firstAggregate_nil] at h

theorem foldl_Push (s : List Err) : ∀ acc : Slice,
    s.foldl Slice.Push acc = acc ++ filtered s := by
  induction s with
  | nil => intro acc; simp [filtered]
  | cons e rest ih =>
    intro acc
    simp only [List.foldl_cons, ih, Push_eq_append, filtered, List.flatMap_cons,
      List.append_assoc]

theorem Slice_Merge_eq (s : Slice) :
    Slice.Merge s = (mergeShape (filtered s), filtered s) := by
  unfold Slice.Merge
  simp only [foldl_Push, List.nil_append]
  match h : filtered s with
  | [] => simp [mergeShape]
  | [e] => simp [mergeShape]
  | e₁ :: e₂ :: rest => simp [mergeShape, Multierr.toErr]


theorem firstAggregate_eq_none_iff : ∀ e : Err,
    firstAggregate e = none ↔ (unwrapChain e).all (fun x => !x.isAggregate) = true
  | .nil => by simp [firstAggregate, unwrapChain]
  | .plain _ _ => by simp [firstAggregate, unwrapChain, Err.isAggregate]
  | .multi _ => by simp [firstAggregate, unwrapChain, Err.isAggregate]
  | .wrap id msg inner => by
    rw [firstAggregate_wrap, firstAggregate_eq_none_iff inner]
    simp [unwrapChain, Err.isAggregate]

theorem plain_firstAggregate {e : Err} (h : IsPlain e) : firstAggregate e = none :=
  (firstAggregate_eq_none_iff e).2 h.2

theorem plain_contribution {e : Err} (h : IsPlain e) : contribution e = [e] := by
  simp [contribution, h.1, plain_firstAggregate h]

theorem plain_not_aggregate {e : Err} (h : IsPlain e) : e.isAggregate = false := by
  have h2 := h.2
  cases e <;> simp_all [unwrapChain, Err.isAggregate]

theorem filtered_of_plain (l : List Err) (h : ∀ e ∈ l, IsPlain e) : filtered l = l := by
  induction l with
  | nil => rfl
  | cons e rest ih =>
    have he := h e (List.mem_cons_self _ _)
    have hr := ih (fun x hx => h x (List.mem_cons_of_mem _ hx))
    unfold filtered at hr ⊢
    simp [List.flatMap_cons, plain_contribution he, hr]

theorem filtered_append (xs ys : List Err) :
    filtered (xs ++ ys) = filtered xs ++ filtered ys := by
  simp [filtered, List.flatMap_append]

theorem filtered_cons (e : Err) (s : List Err) :
    filtered (e :: s) = contribution e ++ filtered s := by
  simp [filtered, List.flatMap_cons]

theorem mem_filtered {x : Err} {s : List Err} :
    x ∈ filtered s ↔ ∃ e ∈ s, x ∈ contribution e := by
  simp [filtered, List.mem_flatMap]

theorem contribution_nil : contribution Err.nil = [] := rfl

theorem contribution_multi (r : List Err) : contribution (Err.multi r) = r := rfl

theorem contribution_cases (e : Err) :
    (e.isNil = true ∧ contribution e = []) ∨
    (e.isNil = false ∧ ∃ r, firstAggregate e = some r ∧ contribution e = r) ∨
    (IsPlain e ∧ contribution e = [e]) := by
  cases hn : e.isNil with
  | true => left; simp [contribution, hn]
  | false =>
    right
    cases hf : firstAggregate e with
    | some r => left; exact ⟨rfl, r, rfl, by simp [contribution, hn, hf]⟩
    | none =>
      right
      have hp : IsPlain e := ⟨hn, (firstAggregate_eq_none_iff e).1 hf⟩
      exact ⟨hp, plain_contribution hp⟩

/-! ## The return shape of Merge -/

/-- Claim C1: with F the concatenation, in order, of the contributions of the elements
of the collector (nothing for nil, the constituent sequence for an element that is or
wraps an aggregate, the element itself otherwise), `Slice.Merge` returns nil when F is
empty, the sole element of F when F has one element, and otherwise the aggregate that
owns exactly F. -/
theorem Slice_Merge_returns_by_filtered (s : Slice) :
    (filtered s = [] → (Slice.Merge s).1 = Err.nil) ∧
    (∀ e, filtered s = [e] → (Slice.Merge s).1 = e) ∧
    (2 ≤ (filtered s).length →
      (Slice.Merge s).1 = (Multierr.mk (filtered s)).toErr ∧
      (Multierr.mk (filtered s)).Slice = filtered s) := by
  rw [Slice_Merge_eq]
  refine ⟨fun h => by simp [h, mergeShape], fun e h => by simp [h, mergeShape], fun h => ?_⟩
  refine ⟨?_, rfl⟩
  match hF : filtered s, h with
  | e₁ :: e₂ :: rest, _ => simp [mergeShape, Multierr.toErr]

/-- An instance of claim C1: a plain error, a nil and a wrapped aggregate of two. -/
theorem Slice_Merge_returns_by_filtered_witness :
    (Slice.Merge [errA, Err.nil, Err.wrap 9 "ctx" (Err.multi [errB, errC])]).1
      = (Multierr.mk [errA, errB, errC]).toErr :=
  ((Slice_Merge_returns_by_filtered
      [errA, Err.nil, Err.wrap 9 "ctx" (Err.multi [errB, errC])]).2.2 (by decide)).1

/-- Claim C2: for a list `l` of two or more plain errors, `Merge` returns an aggregate
whose `Slice()` is exactly `l`: same length, same order, duplicates kept. -/
theorem Merge_plain_list (l : List Err) (hlen : 2 ≤ l.length)
    (hplain : ∀ e ∈ l, IsPlain e) :
    ∃ m : Multierr, Merge l = m.toErr ∧ m.Slice = l ∧ m.Slice.length = l.length := by
  refine ⟨Multierr.mk l, ?_, rfl, rfl⟩
  unfold Merge
  rw [Slice_Merge_eq, filtered_of_plain l hplain]
  match l, hlen with
  | e₁ :: e₂ :: rest, _ => simp [mergeShape, Multierr.toErr]

/-- An instance of claim C2: `Merge(a, a)` has two constituents. -/
theorem Merge_plain_list_witness :
    ∃ m : Multierr, Merge [errA, errA] = m.toErr ∧
      m.Slice = [errA, errA] ∧ m.Slice.length = [errA, errA].length :=
  Merge_plain_list [errA, errA] (by decide) (by decide)

/-! ## Nil elements -/

theorem filtered_filter_nonnil (s : List Err) :
    filtered (s.filter (fun e => !e.isNil)) = filtered s := by
  induction s with
  | nil => rfl
  | cons e rest ih =>
    cases hn : e.isNil with
    | true =>
      have hc : contribution e = [] := by simp [contribution, hn]
      simp [List.filter_cons, hn, filtered_cons, hc, ih]
    | false => simp [List.filter_cons, hn, filtered_cons, ih]

theorem filtered_nonnil (s : List Err) (h : NilFreeAggregates s) :
    ∀ x ∈ filtered s, x.isNil = false := by
  intro x hx
  obtain ⟨e, he, hxe⟩ := mem_filtered.1 hx
  rcases contribution_cases e with ⟨_, hc⟩ | ⟨_, r, hr, hc⟩ | ⟨hp, hc⟩
  · simp [hc] at hxe
  · rw [hc] at hxe
    exact h e he r hr x hxe
  · rw [hc] at hxe
    simp at hxe
    rw [hxe]
    exact hp.1

/-- Claim C3, amended: `Slice.Merge` gives the same result, and leaves the same contents,
as on the sequence with all nils removed.  When moreover no aggregate that an element is
or wraps owns a nil, no element of the resulting contents is nil, and an aggregate that
Merge builds (two or more errors left) owns exactly those contents, so none of its
sequence is nil. -/
theorem Slice_Merge_drops_nils (s : Slice) :
    Slice.Merge s = Slice.Merge (s.filter (fun e => !e.isNil)) ∧
    (NilFreeAggregates s →
      (∀ x ∈ (Slice.Merge s).2, x.isNil = false) ∧
      (2 ≤ (Slice.Merge s).2.length →
        ∃ m : Multierr, (Slice.Merge s).1 = m.toErr ∧ ∀ x ∈ m.Slice, x.isNil = false)) := by
  refine ⟨by rw [Slice_Merge_eq, Slice_Merge_eq, filtered_filter_nonnil], fun h => ?_⟩
  rw [Slice_Merge_eq]
  refine ⟨filtered_nonnil s h, fun h2 => ⟨Multierr.mk (filtered s), ?_, ?_⟩⟩
  swap
  · exact filtered_nonnil s h
  simp only at h2 ⊢
  match hF : filtered s, h2 with
  | e₁ :: e₂ :: rest, _ => simp [mergeShape, Multierr.toErr]

/-- An instance of the amended claim C3: nils around a plain error and an aggregate of
two. -/
theorem Slice_Merge_drops_nils_witness :
    (∀ x ∈ (Slice.Merge [Err.nil, errA, Err.nil, Err.multi [errB, errC]]).2,
      x.isNil = false) ∧
    (2 ≤ (Slice.Merge [Err.nil, errA, Err.nil, Err.multi [errB, errC]]).2.length →
      ∃ m : Multierr,
        (Slice.Merge [Err.nil, errA, Err.nil, Err.multi [errB, errC]]).1 = m.toErr ∧
        ∀ x ∈ m.Slice, x.isNil = false) :=
  (Slice_Merge_drops_nils [Err.nil, errA, Err.nil, Err.multi [errB, errC]]).2
    (by
      intro e he r hr
      simp only [List.mem_cons, List.mem_singleton, List.not_mem_nil, or_false] at he
      rcases he with rfl | rfl | rfl | rfl <;>
        simp [firstAggregate, unwrapChain, Err.isAggregate] at hr
      subst hr
      intro x hx
      simp only [List.mem_cons, List.mem_singleton, List.not_mem_nil, or_false] at hx
      rcases hx with rfl | rfl <;> rfl)

/-- Claim C3 as stated fails: an element that is an aggregate owning a nil hands that nil
on to the contents and to the returned aggregate. -/
theorem Slice_Merge_keeps_inner_nil :
    (Slice.Merge [Err.nil, Err.multi [Err.nil, errA]]).2 = [Err.nil, errA] ∧
    (Slice.Merge [Err.nil, Err.multi [Err.nil, errA]]).1
      = (Multierr.mk [Err.nil, errA]).toErr ∧
    Err.nil ∈ (Multierr.mk [Err.nil, errA]).Slice :=
  ⟨rfl, rfl, List.mem_cons_self _ _⟩

/-! ## Flattening -/

theorem Merge_eq_mergeShape (l : List Err) : Merge l = mergeShape (filtered l) := by
  unfold Merge
  rw [Slice_Merge_eq]

theorem mergeShape_two (F : List Err) (h : 2 ≤ F.length) : mergeShape F = Err.multi F := by
  match F, h with
  | e₁ :: e₂ :: rest, _ => rfl

theorem mergeProduced_contribution {x : Err} (h : MergeProduced x) :
    ∃ r, 2 ≤ r.length ∧ contribution x = r := by
  obtain ⟨l, hlen, hx⟩ := h
  rw [Slice_Merge_eq] at hlen hx
  simp only at hlen hx
  rw [mergeShape_two _ hlen] at hx
  exact ⟨filtered l, hlen, by rw [hx, contribution_multi]⟩

/-- Pushing what Merge returned for `xs` contributes the filtered sequence of `xs`, when
the elements of `xs` are nil, plain, or aggregates of two or more errors. -/
theorem contribution_mergeShape (xs : List Err)
    (h : ∀ x ∈ xs, x.isNil = true ∨ IsPlain x ∨ MergeProduced x) :
    contribution (mergeShape (filtered xs)) = filtered xs := by
  match hF : filtered xs with
  | [] => rfl
  | e₁ :: e₂ :: rest => rfl
  | [e] =>
    show contribution e = [e]
    have hmem : e ∈ filtered xs := by simp [hF]
    obtain ⟨x, hx, hex⟩ := mem_filtered.1 hmem
    have hsub : (contribution x).length ≤ (filtered xs).length := by
      clear hF hmem hex h
      induction xs with
      | nil => simp at hx
      | cons y rest ih =>
        rw [filtered_cons, List.length_append]
        rcases List.mem_cons.1 hx with rfl | hx
        · omega
        · have := ih hx
          omega
    rw [hF] at hsub
    rcases h x hx with hn | hp | hm
    · have : contribution x = [] := by simp [contribution, hn]
      simp [this] at hex
    · rw [plain_contribution hp] at hex
      simp at hex
      rw [hex]
      exact plain_contribution hp
    · obtain ⟨r, hr, hc⟩ := mergeProduced_contribution hm
      rw [hc] at hsub
      simp at hsub
      omega

/-- Claim C4: for plain errors a, b, c, pushing `Merge(a, b)` and then c into a fresh
collector and merging yields the aggregate whose sequence is exactly [a, b, c], none of
them an aggregate; and for every list `xs` of errors that are nil, plain or aggregates
produced by Merge, and every list `ys`, `Merge(Merge(xs...), ys...)` equals
`Merge(xs ++ ys)`. -/
theorem Merge_flattens (a b c : Err) (xs ys : List Err)
    (ha : IsPlain a) (hb : IsPlain b) (hc : IsPlain c)
    (hxs : ∀ x ∈ xs, x.isNil = true ∨ IsPlain x ∨ MergeProduced x) :
    (Slice.Merge (Slice.Push (Slice.Push [] (Merge [a, b])) c)
        = ((Multierr.mk [a, b, c]).toErr, [a, b, c]) ∧
      ∀ x ∈ (Multierr.mk [a, b, c]).Slice, x.isAggregate = false) ∧
    Merge (Merge xs :: ys) = Merge (xs ++ ys) := by
  refine ⟨⟨?_, ?_⟩, ?_⟩
  · have hab : Merge [a, b] = Err.multi [a, b] := by
      rw [Merge_eq_mergeShape, filtered_of_plain [a, b] (by simp [ha, hb])]
      rfl
    have hF : filtered [a, b, c] = [a, b, c] :=
      filtered_of_plain [a, b, c] (by simp [ha, hb, hc])
    rw [hab, Push_eq_append, Push_eq_append, contribution_multi, plain_contribution hc,
      Slice_Merge_eq]
    simp only [List.nil_append, List.cons_append, hF]
    rfl
  · intro x hx
    simp only [Multierr.Slice, List.mem_cons, List.mem_singleton, List.not_mem_nil,
      or_false] at hx
    rcases hx with rfl | rfl | rfl
    · exact plain_not_aggregate ha
    · exact plain_not_aggregate hb
    · exact plain_not_aggregate hc
  · rw [Merge_eq_mergeShape (Merge xs :: ys), Merge_eq_mergeShape (xs ++ ys),
      filtered_cons, filtered_append, Merge_eq_mergeShape xs, contribution_mergeShape xs hxs]

/-- An instance of claim C4, with an aggregate produced by Merge among `xs`. -/
theorem Merge_flattens_witness :
    (Slice.Merge (Slice.Push (Slice.Push [] (Merge [errA, errB])) errC)
        = ((Multierr.mk [errA, errB, errC]).toErr, [errA, errB, errC]) ∧
      ∀ x ∈ (Multierr.mk [errA, errB, errC]).Slice, x.isAggregate = false) ∧
    Merge (Merge [Err.nil, Merge [errX, errY], errA] :: [errB, Err.nil])
      = Merge ([Err.nil, Merge [errX, errY], errA] ++ [errB, Err.nil]) :=
  Merge_flattens errA errB errC [Err.nil, Merge [errX, errY], errA] [errB, Err.nil]
    (by decide) (by decide) (by decide)
    (by
      intro x hx
      simp only [List.mem_cons, List.mem_singleton, List.not_mem_nil, or_false] at hx
      rcases hx with rfl | rfl | rfl
      · exact Or.inl rfl
      · exact Or.inr (Or.inr ⟨[errX, errY], by decide, rfl⟩)
      · exact Or.inr (Or.inl (by decide)))

/-! ## The invariant of aggregates -/

theorem wellBuilt_of_chain : ∀ e : Err,
    (unwrapChain e).all (fun x => !x.isAggregate) = true → WellBuilt e
  | .nil, _ => WellBuilt.nil
  | .plain id msg, _ => WellBuilt.plain id msg
  | .multi _, h => by simp [unwrapChain, Err.isAggregate] at h
  | .wrap id msg inner, h => by
    refine WellBuilt.wrap id msg inner (wellBuilt_of_chain inner ?_)
    simp only [unwrapChain, List.all_cons, Bool.and_eq_true] at h
    exact h.2

theorem wellBuilt_of_plain {e : Err} (h : IsPlain e) : WellBuilt e :=
  wellBuilt_of_chain e h.2

/-- The filtered sequence holds plain errors only, when the sequences of the aggregates
that the elements are or wrap do. -/
theorem filtered_plain (s : List Err)
    (h : ∀ e ∈ s, ∀ r, firstAggregate e = some r → ∀ x ∈ r, IsPlain x) :
    ∀ x ∈ filtered s, IsPlain x := by
  intro x hx
  obtain ⟨e, he, hxe⟩ := mem_filtered.1 hx
  rcases contribution_cases e with ⟨_, hc⟩ | ⟨_, r, hr, hc⟩ | ⟨hp, hc⟩
  · simp [hc] at hxe
  · rw [hc] at hxe
    exact h e he r hr x hxe
  · rw [hc] at hxe
    simp at hxe
    rw [hxe]
    exact hp

theorem firstAggregate_multi (r : List Err) : firstAggregate (Err.multi r) = some r := rfl

/-- The aggregate that a well-built value is or wraps is empty or owns two or more
errors, all of them plain. -/
theorem wellBuilt_aggregate {e : Err} (h : WellBuilt e) :
    ∀ r, firstAggregate e = some r → (r = [] ∨ 2 ≤ r.length) ∧ ∀ x ∈ r, IsPlain x := by
  induction h with
  | nil => intro r hr; simp [firstAggregate_nil] at hr
  | plain id msg => intro r hr; simp [firstAggregate, unwrapChain, Err.isAggregate] at hr
  | wrap id msg inner _ ih => intro r hr; rw [firstAggregate_wrap] at hr; exact ih r hr
  | zero =>
    intro r hr
    simp only [Multierr.toErr, firstAggregate_multi, Option.some.injEq] at hr
    subst hr
    exact ⟨Or.inl rfl, by simp⟩
  | merged l _ ih =>
    intro r hr
    have hall : ∀ x ∈ filtered l, IsPlain x :=
      filtered_plain l (fun e he r hr => (ih e he r hr).2)
    rw [Merge_eq_mergeShape] at hr
    match hF : filtered l with
    | [] => rw [hF] at hr; simp [mergeShape, firstAggregate_nil] at hr
    | [e] =>
      rw [hF] at hr
      have hp : IsPlain e := hall e (by simp [hF])
      simp [mergeShape, plain_firstAggregate hp] at hr
    | e₁ :: e₂ :: rest =>
      rw [hF] at hr hall
      simp only [mergeShape, firstAggregate_multi, Option.some.injEq] at hr
      subst hr
      exact ⟨Or.inr (by simp), hall⟩

/-- Claim C5: for a collector whose aggregate elements, direct or wrapped, are the
zero-value Multierr or were produced by Merge, an aggregate that `Slice.Merge` returns
owns at least two errors, all of them plain (not nil, neither an aggregate nor a wrapper
of one); the returned error and the elements left in the collector are again such
values, so further Push and Merge calls built on them keep the invariant. -/
theorem Slice_Merge_aggregate_invariant (s : Slice) (h : ∀ e ∈ s, WellBuilt e) :
    (∀ m : Multierr, (Slice.Merge s).1 = m.toErr →
      2 ≤ m.Slice.length ∧ ∀ x ∈ m.Slice, IsPlain x) ∧
    WellBuilt (Slice.Merge s).1 ∧
    (∀ x ∈ (Slice.Merge s).2, WellBuilt x) ∧
    ∀ e, WellBuilt e → ∀ x ∈ Slice.Push (Slice.Merge s).2 e, WellBuilt x := by
  have hall : ∀ x ∈ filtered s, IsPlain x :=
    filtered_plain s (fun e he r hr => (wellBuilt_aggregate (h e he) r hr).2)
  refine ⟨?_, WellBuilt.merged s h, ?_, ?_⟩
  · intro m hm
    rw [Slice_Merge_eq] at hm
    simp only [Multierr.toErr] at hm
    match hF : filtered s with
    | [] => rw [hF] at hm; simp [mergeShape] at hm
    | [e] =>
      rw [hF] at hm
      have hp : IsPlain e := hall e (by simp [hF])
      simp only [mergeShape] at hm
      rw [hm] at hp
      simpa [Err.isAggregate] using plain_not_aggregate hp
    | e₁ :: e₂ :: rest =>
      rw [hF] at hm hall
      simp only [mergeShape, Err.multi.injEq] at hm
      simp only [Multierr.Slice, ← hm]
      exact ⟨by simp, hall⟩
  · rw [Slice_Merge_eq]
    exact fun x hx => wellBuilt_of_plain (hall x hx)
  · intro e he x hx
    rw [Slice_Merge_eq, Push_eq_append] at hx
    rcases List.mem_append.1 hx with hx | hx
    · exact wellBuilt_of_plain (hall x hx)
    · rcases contribution_cases e with ⟨_, hc⟩ | ⟨_, r, hr, hc⟩ | ⟨hp, hc⟩
      · simp [hc] at hx
      · rw [hc] at hx
        exact wellBuilt_of_plain ((wellBuilt_aggregate he r hr).2 x hx)
      · rw [hc] at hx
        simp at hx
        rw [hx]
        exact he

/-- An instance of claim C5: a collector holding an aggregate produced by Merge, a
wrapper of one, the zero-value Multierr and a plain error. -/
theorem Slice_Merge_aggregate_invariant_witness :
    (∀ m : Multierr,
      (Slice.Merge [Merge [errA, errB], Err.wrap 9 "ctx" (Merge [errC, errX]),
        (Multierr.mk []).toErr, errY]).1 = m.toErr →
      2 ≤ m.Slice.length ∧ ∀ x ∈ m.Slice, IsPlain x) ∧
    (Slice.Merge [Merge [errA, errB], Err.wrap 9 "ctx" (Merge [errC, errX]),
        (Multierr.mk []).toErr, errY]).1
      = (Multierr.mk [errA, errB, errC, errX, errY]).toErr :=
  ⟨(Slice_Merge_aggregate_invariant
      [Merge [errA, errB], Err.wrap 9 "ctx" (Merge [errC, errX]), (Multierr.mk []).toErr, errY]
      (by
        intro e he
        simp only [List.mem_cons, List.mem_singleton, List.not_mem_nil, or_false] at he
        rcases he with rfl | rfl | rfl | rfl
        · exact WellBuilt.merged _ (by
            intro e he
            simp only [List.mem_cons, List.mem_singleton, List.not_mem_nil, or_false] at he
            rcases he with rfl | rfl <;> exact WellBuilt.plain _ _)
        · exact WellBuilt.wrap _ _ _ (WellBuilt.merged _ (by
            intro e he
            simp only [List.mem_cons, List.mem_singleton, List.not_mem_nil, or_false] at he
            rcases he with rfl | rfl <;> exact WellBuilt.plain _ _))
        · exact WellBuilt.zero
        · exact WellBuilt.plain _ _)).1, rfl⟩

/-! ## A single error, and no error -/

/-- Claim C6, amended: for every plain error e (not nil, neither an aggregate nor a
wrapper of one), pushing e alone into a fresh collector and merging returns e itself and
leaves the collector holding e alone, so the message of the result is the message of
e. -/
theorem Slice_Merge_single_plain (e : Err) (h : IsPlain e) :
    Slice.Merge (Slice.Push [] e) = (e, [e]) ∧
    (Slice.Merge (Slice.Push [] e)).1.Error = e.Error := by
  have hm : Slice.Merge (Slice.Push [] e) = (e, [e]) := by
    rw [Push_eq_append, plain_contribution h, Slice_Merge_eq,
      filtered_of_plain ([] ++ [e]) (by simpa using h)]
    rfl
  exact ⟨hm, by rw [hm]⟩

/-- An instance of the amended claim C6: a leaf error with message x, and a wrapper of
it. -/
theorem Slice_Merge_single_plain_witness :
    (Slice.Merge (Slice.Push [] (Err.wrap 9 "ctx: x" errX))
        = (Err.wrap 9 "ctx: x" errX, [Err.wrap 9 "ctx: x" errX]) ∧
      (Slice.Merge (Slice.Push [] (Err.wrap 9 "ctx: x" errX))).1.Error
        = (Err.wrap 9 "ctx: x" errX).Error) ∧
    (Slice.Merge (Slice.Push [] errX)).1.Error = some "x" :=
  ⟨Slice_Merge_single_plain (Err.wrap 9 "ctx: x" errX) (by decide), rfl⟩

/-- Claim C6 as stated fails: a non-nil error that wraps an aggregate, pushed alone, comes
back as the wrapped aggregate, without the wrapper and with another message. -/
theorem Slice_Merge_single_wrapper_unwrapped :
    (Err.wrap 9 "ctx: 2 errors: a; b" (Merge [errA, errB])).isNil = false ∧
    (Slice.Merge (Slice.Push [] (Err.wrap 9 "ctx: 2 errors: a; b" (Merge [errA, errB])))).1
      = (Multierr.mk [errA, errB]).toErr ∧
    (Multierr.mk [errA, errB]).toErr ≠ Err.wrap 9 "ctx: 2 errors: a; b" (Merge [errA, errB]) ∧
    (Multierr.mk [errA, errB]).toErr.Error = some "2 errors: a; b" ∧
    (Err.wrap 9 "ctx: 2 errors: a; b" (Merge [errA, errB])).Error
      = some "ctx: 2 errors: a; b" :=
  ⟨rfl, rfl, fun h => Err.noConfusion h, rfl, rfl⟩

theorem contribution_eq_nil_iff (e : Err) :
    contribution e = [] ↔ e.isNil = true ∨ firstAggregate e = some [] := by
  rcases contribution_cases e with ⟨hn, hc⟩ | ⟨hn, r, hr, hc⟩ | ⟨hp, hc⟩
  · simp [hn, hc]
  · rw [hc, hr, hn]
    simp
  · rw [hc, plain_firstAggregate hp, hp.1]
    simp

theorem filtered_eq_nil_iff (s : List Err) :
    filtered s = [] ↔ ∀ e ∈ s, e.isNil = true ∨ firstAggregate e = some [] := by
  induction s with
  | nil => simp [filtered]
  | cons e rest ih =>
    rw [filtered_cons, List.append_eq_nil, ih, contribution_eq_nil_iff]
    simp

/-- Claim C7, amended: for a collector whose aggregates own no nil, `Slice.Merge` returns
nil if and only if every element is nil or is (or wraps) an aggregate with an empty
sequence, such as the zero-value Multierr; a fresh collector merges to nil; and a
collector holding any plain error never merges to nil. -/
theorem Slice_Merge_nil_iff (s : Slice) :
    (NilFreeAggregates s →
      ((Slice.Merge s).1 = Err.nil ↔
        ∀ e ∈ s, e.isNil = true ∨ firstAggregate e = some [])) ∧
    (Slice.Merge []).1 = Err.nil ∧
    ((∃ e ∈ s, IsPlain e) → (Slice.Merge s).1 ≠ Err.nil) := by
  refine ⟨fun h => ?_, rfl, ?_⟩
  · rw [← filtered_eq_nil_iff, Slice_Merge_eq]
    have hnn := filtered_nonnil s h
    match hF : filtered s with
    | [] => simp [mergeShape]
    | [e] =>
      have he : e.isNil = false := hnn e (by simp [hF])
      simp only [mergeShape]
      constructor
      · intro hnil
        rw [hnil] at he
        simp [Err.isNil] at he
      · intro hc
        simp at hc
    | e₁ :: e₂ :: rest => simp [mergeShape]
  · rintro ⟨e, he, hp⟩
    rw [Slice_Merge_eq]
    have hmem : e ∈ filtered s :=
      mem_filtered.2 ⟨e, he, by rw [plain_contribution hp]; simp⟩
    match hF : filtered s with
    | [] => rw [hF] at hmem; simp at hmem
    | [x] =>
      rw [hF] at hmem
      simp only [List.mem_singleton] at hmem
      subst hmem
      simp only [mergeShape]
      intro hnil
      have := hp.1
      rw [hnil] at this
      simp [Err.isNil] at this
    | e₁ :: e₂ :: rest => simp [mergeShape]

/-- An instance of the amended claim C7: nils and empty aggregates only, and a collector
holding a plain error. -/
theorem Slice_Merge_nil_iff_witness :
    ((Slice.Merge [Err.nil, (Multierr.mk []).toErr, Err.wrap 9 "ctx" (Err.multi [])]).1
        = Err.nil ↔
      ∀ e ∈ [Err.nil, (Multierr.mk []).toErr, Err.wrap 9 "ctx" (Err.multi [])],
        e.isNil = true ∨ firstAggregate e = some []) ∧
    (Slice.Merge [Err.nil, errA]).1 ≠ Err.nil :=
  ⟨(Slice_Merge_nil_iff
      [Err.nil, (Multierr.mk []).toErr, Err.wrap 9 "ctx" (Err.multi [])]).1
      (by
        intro e he r hr
        simp only [List.mem_cons, List.mem_singleton, List.not_mem_nil, or_false] at he
        rcases he with rfl | rfl | rfl <;>
          simp [firstAggregate, unwrapChain, Err.isAggregate, Multierr.toErr] at hr <;>
          subst hr <;> simp),
    (Slice_Merge_nil_iff [Err.nil, errA]).2.2 ⟨errA, by simp, by decide⟩⟩

/-- Claim C7 as stated fails: the zero-value Multierr is a non-nil error, and a collector
holding it merges to nil. -/
theorem Slice_Merge_zero_value_gives_nil :
    (Multierr.mk []).toErr.isNil = false ∧
    (Slice.Merge [(Multierr.mk []).toErr]).1 = Err.nil :=
  ⟨rfl, rfl⟩

/-! ## Push -/

/-- Claim C8: `Push(e)` leaves the contents equal to the old contents followed by the
contribution of e: nothing when e is nil, the constituent sequence of the first aggregate
on the unwrap chain when e is or wraps an aggregate (the wrapper is not appended), and e
alone otherwise.  The old elements stay, in place and unchanged. -/
theorem Slice_Push_appends_contribution (s : Slice) (e : Err) :
    Slice.Push s e = s ++ contribution e ∧
    (e.isNil = true → Slice.Push s e = s) ∧
    (∀ r, firstAggregate e = some r → Slice.Push s e = s ++ r) ∧
    (IsPlain e → Slice.Push s e = s ++ [e]) ∧
    (Slice.Push s e).take s.length = s := by
  refine ⟨Push_eq_append s e, fun hn => ?_, fun r hr => ?_, fun hp => ?_, ?_⟩
  · rw [Push_eq_append]
    simp [contribution, hn]
  · rw [Push_eq_append]
    cases hn : e.isNil with
    | true =>
      cases e <;> simp [Err.isNil] at hn
      simp [firstAggregate_nil] at hr
    | false => simp [contribution, hn, hr]
  · rw [Push_eq_append, plain_contribution hp]
  · rw [Push_eq_append]
    simp

/-- An instance of claim C8: pushing a wrapper of an aggregate appends the constituents
and not the wrapper. -/
theorem Slice_Push_appends_contribution_witness :
    Slice.Push [errX] (Err.wrap 9 "ctx" (Err.multi [errA, errB])) = [errX, errA, errB] :=
  (Slice_Push_appends_contribution [errX] (Err.wrap 9 "ctx" (Err.multi [errA, errB]))).2.2.1
    [errA, errB] rfl

/-! ## Messages of an aggregate -/

theorem errorsToStringsLoop_eq (s : List Err) (hne : s ≠ []) :
    ∀ (rest : List Err) (ms a : List String),
      List.Forall₂ (fun e msg => e.Error = some msg) rest ms →
      errorsToStringsLoop s rest a = some (a ++ ms) := by
  have hs : s.isEmpty = false := by cases s <;> simp_all
  intro rest
  induction rest with
  | nil =>
    intro ms a h
    cases h
    simp [errorsToStringsLoop]
  | cons e rest ih =>
    intro ms a h
    cases h with
    | cons hhead htail =>
      rw [errorsToStringsLoop]
      simp only [hs, hhead, Bool.not_false, if_true]
      rw [ih _ _ htail]
      simp

theorem errorsToStrings_eq (s : List Err) (ms : List String) (hne : s ≠ [])
    (h : List.Forall₂ (fun e msg => e.Error = some msg) s ms) :
    errorsToStrings s = some ms := by
  unfold errorsToStrings
  rw [errorsToStringsLoop_eq s hne s ms [] h]
  simp

theorem Err_Error_multi (s : List Err) : (Err.multi s).Error = (Multierr.mk s).Error := by
  rw [Err.Error]
  rfl

/-- Claim C9: for an aggregate with a non-empty sequence of N errors with messages
m1..mN, `Error()` is the decimal N, then " error" when N = 1 or " errors" when N > 1, then
": ", then the messages joined with "; " in the original order. -/
theorem Multierr_Error_message (m : Multierr) (ms : List String) (hne : m.s ≠ [])
    (hmsg : List.Forall₂ (fun e msg => e.Error = some msg) m.s ms) :
    ms.length = m.Slice.length ∧
    m.Error = some (toString ms.length ++ (if ms.length = 1 then " error" else " errors")
      ++ ": " ++ String.intercalate "; " ms) ∧
    m.toErr.Error = m.Error := by
  have hlen : ms.length = m.s.length := hmsg.length_eq.symm
  have hpos : ms.length ≠ 0 := by
    rw [hlen]
    exact fun h => hne (List.length_eq_zero.1 h)
  refine ⟨hlen, ?_, Err_Error_multi m.s⟩
  unfold Multierr.Error Multierr.Strings
  rw [errorsToStrings_eq m.s ms hne hmsg]
  simp only [errorMessage, hpos, if_false]
  by_cases h1 : ms.length = 1
  · simp only [h1, if_true]
    rfl
  · have hs : ∀ t : String, t ++ " error" ++ "s" = t ++ " errors" := fun t => by
      rw [String.append_assoc]
      rfl
    simp only [h1, if_false, hs]

/-- An instance of claim C9: messages x and y give "2 errors: x; y", and one message x
gives "1 error: x". -/
theorem Multierr_Error_message_witness :
    (Multierr.mk [errX, errY]).Error = some "2 errors: x; y" ∧
    (Multierr.mk [errX]).Error = some "1 error: x" :=
  ⟨(Multierr_Error_message (Multierr.mk [errX, errY]) ["x", "y"] (by simp)
      (List.Forall₂.cons rfl (List.Forall₂.cons rfl List.Forall₂.nil))).2.1,
    rfl⟩

/-! ## The expanded rendering -/

theorem State_write_write (state : State) (x y : String) :
    (state.write x).write y = state.write (x ++ y) := by
  simp [State.write, String.append_assoc]

theorem formatLoop_eq : ∀ (a : List String) (i : Nat) (state : State),
    formatLoop a i state = state.write (((a.enumFrom i).map
      (fun p => "\terror " ++ toString (p.1 + 1) ++ ": " ++ p.2 ++ "\n")).foldr
        (fun x y => x ++ y) "")
  | [], i, state => by simp [formatLoop, State.write]
  | err :: rest, i, state => by
    rw [formatLoop, formatLoop_eq rest (i + 1), State_write_write]
    simp [List.enumFrom]

/-- Claim C10: for an aggregate with a non-empty sequence of N errors with messages
m1..mN, `Format` with verb v and the plus flag writes the header, the decimal N followed
by " error:" and a newline when N = 1 or " errors:" and a newline when N > 1, and then,
for i = 1..N in the original order, a tab, "error ", the decimal i, ": ", the message mi
and a newline. -/
theorem Multierr_Format_plus_v (quote : String → String) (m : Multierr) (ms : List String)
    (state : State) (hne : m.s ≠ [])
    (hmsg : List.Forall₂ (fun e msg => e.Error = some msg) m.s ms)
    (hplus : state.Flag '+' = true) :
    m.Format quote state 'v' = some (state.write
      (toString ms.length ++ (if ms.length = 1 then " error:\n" else " errors:\n") ++
        ((ms.enum.map
          (fun p => "\terror " ++ toString (p.1 + 1) ++ ": " ++ p.2 ++ "\n")).foldr
          (fun x y => x ++ y) ""))) := by
  have hlen : ms.length = m.s.length := hmsg.length_eq.symm
  have hpos : ms.length ≠ 0 := by
    rw [hlen]
    exact fun h => hne (List.length_eq_zero.1 h)
  unfold Multierr.Format Multierr.Strings
  rw [errorsToStrings_eq m.s ms hne hmsg]
  simp only [hplus, hpos, if_false, and_self, or_true, if_true, formatLoop_eq,
    State_write_write, List.enum]
  by_cases h1 : ms.length = 1
  · simp only [h1, if_true]
    rfl
  · have hs : ∀ t : String, t ++ " error" ++ "s" ++ ":\n" = t ++ " errors:\n" := fun t => by
      rw [String.append_assoc, String.append_assoc]
      rfl
    simp only [h1, if_false, hs]

/-- An instance of claim C10: messages x and y. -/
theorem Multierr_Format_plus_v_witness :
    (Multierr.mk [errX, errY]).Format (fun q => q) (State.mk ['+'] "") 'v'
      = some (State.mk ['+'] "2 errors:\n\terror 1: x\n\terror 2: y\n") :=
  Multierr_Format_plus_v (fun q => q) (Multierr.mk [errX, errY]) ["x", "y"]
    (State.mk ['+'] "") (by simp)
    (List.Forall₂.cons rfl (List.Forall₂.cons rfl List.Forall₂.nil)) rfl

/-! ## Calling Merge again -/

theorem filtered_wellBuilt_plain (s : List Err) (h : ∀ e ∈ s, WellBuilt e) :
    ∀ x ∈ filtered s, IsPlain x :=
  filtered_plain s (fun e he r hr => (wellBuilt_aggregate (h e he) r hr).2)

theorem filtered_idem (s : List Err) (h : ∀ e ∈ s, WellBuilt e) :
    filtered (filtered s) = filtered s :=
  filtered_of_plain (filtered s) (filtered_wellBuilt_plain s h)

/-- Claim C11: for a collector whose aggregate elements, direct or wrapped, were produced
by Merge or are the zero-value Multierr, a second call of `Slice.Merge` returns the same
result as the first and leaves the contents as the first call left them; pushing the
already flat, nil-free contents again is the identity. -/
theorem Slice_Merge_idempotent (s : Slice) (h : ∀ e ∈ s, WellBuilt e) :
    Slice.Merge (Slice.Merge s).2 = Slice.Merge s ∧
    (Slice.Merge s).2.foldl Slice.Push [] = (Slice.Merge s).2 := by
  have hi := filtered_idem s h
  refine ⟨?_, ?_⟩
  · rw [Slice_Merge_eq s]
    simp only
    rw [Slice_Merge_eq (filtered s), hi]
  · rw [Slice_Merge_eq s]
    simp only
    rw [foldl_Push, hi, List.nil_append]

/-- An instance of claim C11: a collector holding a nil, an aggregate produced by Merge
and a plain error. -/
theorem Slice_Merge_idempotent_witness :
    Slice.Merge (Slice.Merge [Err.nil, Merge [errA, errB], errC]).2
        = Slice.Merge [Err.nil, Merge [errA, errB], errC] ∧
    (Slice.Merge [Err.nil, Merge [errA, errB], errC]).2.foldl Slice.Push []
        = (Slice.Merge [Err.nil, Merge [errA, errB], errC]).2 :=
  Slice_Merge_idempotent [Err.nil, Merge [errA, errB], errC]
    (by
      intro e he
      simp only [List.mem_cons, List.mem_singleton, List.not_mem_nil, or_false] at he
      rcases he with rfl | rfl | rfl
      · exact WellBuilt.nil
      · exact WellBuilt.merged _ (by
          intro e he
          simp only [List.mem_cons, List.mem_singleton, List.not_mem_nil, or_false] at he
          rcases he with rfl | rfl <;> exact WellBuilt.plain _ _)
      · exact WellBuilt.plain _ _)

theorem mergeShape_eq_nil_of_plain (F : List Err) (h : ∀ x ∈ F, IsPlain x) :
    mergeShape F = Err.nil ↔ F = [] := by
  match F, h with
  | [], _ => simp [mergeShape]
  | [e], h =>
    have he : e.isNil = false := (h e (by simp)).1
    simp only [mergeShape]
    constructor
    · intro hnil
      rw [hnil] at he
      simp [Err.isNil] at he
    · intro hc
      simp at hc
  | e₁ :: e₂ :: rest, _ => simp [mergeShape]

/-- Claim C12, amended: the first call of `Slice.Merge` does not drain the collector, it
leaves the filtered sequence in it.  A second call returns nil when the first call left
the collector empty; for a collector whose aggregates were produced by Merge or are the
zero-value Multierr that is the only case, and it is the case where the first call
returned nil. -/
theorem Slice_Merge_second_call (s : Slice) :
    (Slice.Merge s).2 = filtered s ∧
    ((Slice.Merge s).2 = [] → (Slice.Merge (Slice.Merge s).2).1 = Err.nil) ∧
    ((∀ e ∈ s, WellBuilt e) →
      ((Slice.Merge (Slice.Merge s).2).1 = Err.nil ↔ (Slice.Merge s).2 = []) ∧
      ((Slice.Merge s).1 = Err.nil ↔ (Slice.Merge s).2 = [])) := by
  refine ⟨by rw [Slice_Merge_eq], fun h0 => by rw [h0]; rfl, fun h => ?_⟩
  have hp := filtered_wellBuilt_plain s h
  have hi := filtered_idem s h
  rw [Slice_Merge_eq s]
  simp only
  rw [Slice_Merge_eq (filtered s), hi]
  exact ⟨mergeShape_eq_nil_of_plain _ hp, mergeShape_eq_nil_of_plain _ hp⟩

/-- An instance of the amended claim C12: a collector of nils is left empty and merges to
nil again. -/
theorem Slice_Merge_second_call_witness :
    ((Slice.Merge (Slice.Merge [Err.nil, Err.nil]).2).1 = Err.nil ↔
        (Slice.Merge [Err.nil, Err.nil]).2 = []) ∧
    ((Slice.Merge [Err.nil, Err.nil]).1 = Err.nil ↔
        (Slice.Merge [Err.nil, Err.nil]).2 = []) :=
  (Slice_Merge_second_call [Err.nil, Err.nil]).2.2
    (by
      intro e he
      simp only [List.mem_cons, List.mem_singleton, List.not_mem_nil, or_false] at he
      rcases he with rfl | rfl <;> exact WellBuilt.nil)

/-- Claim C12 as stated fails: after a first call on a collector holding one error, the
collector still holds it and the second call returns it, not nil. -/
theorem Slice_Merge_second_call_not_nil :
    (Slice.Merge [errX]).2 = [errX] ∧
    (Slice.Merge (Slice.Merge [errX]).2).1 = errX ∧
    errX ≠ Err.nil :=
  ⟨rfl, rfl, fun h => Err.noConfusion h⟩

/-! ## The contents after Merge, and the two construction paths -/

/-- Claim C13, amended: after `Slice.Merge` returns, the contents of the collector are
exactly the filtered sequence (nils dropped, aggregates replaced by their constituents,
order kept), whichever return shape was chosen; when Merge returns the aggregate it
builds (two or more errors left), the contents equal the `Slice()` of that aggregate.
For a collector whose aggregates were produced by Merge or are the zero-value Multierr,
every aggregate Merge returns is of that shape. -/
theorem Slice_Merge_contents (s : Slice) :
    (Slice.Merge s).2 = filtered s ∧
    (2 ≤ (filtered s).length →
      ∃ m : Multierr, (Slice.Merge s).1 = m.toErr ∧ (Slice.Merge s).2 = m.Slice) ∧
    ((∀ e ∈ s, WellBuilt e) →
      ∀ m : Multierr, (Slice.Merge s).1 = m.toErr → (Slice.Merge s).2 = m.Slice) := by
  rw [Slice_Merge_eq]
  refine ⟨rfl, fun h2 => ⟨Multierr.mk (filtered s), ?_, rfl⟩, fun h m hm => ?_⟩
  · simp only [Multierr.toErr]
    exact mergeShape_two _ h2
  · have hp := filtered_wellBuilt_plain s h
    simp only [Multierr.toErr] at hm
    simp only [Multierr.Slice]
    match hF : filtered s with
    | [] => rw [hF] at hm; simp [mergeShape] at hm
    | [e] =>
      rw [hF] at hm
      have he : IsPlain e := hp e (by simp [hF])
      simp only [mergeShape] at hm
      rw [hm] at he
      simpa [Err.isAggregate] using plain_not_aggregate he
    | e₁ :: e₂ :: rest =>
      rw [hF] at hm
      simp only [mergeShape, Err.multi.injEq] at hm
      exact hm

/-- An instance of the amended claim C13: nils dropped and an aggregate flattened, in
order. -/
theorem Slice_Merge_contents_witness :
    (Slice.Merge [Err.nil, errA, Err.multi [errB, errC], Err.nil]).2 = [errA, errB, errC] ∧
    ∃ m : Multierr,
      (Slice.Merge [Err.nil, errA, Err.multi [errB, errC], Err.nil]).1 = m.toErr ∧
      (Slice.Merge [Err.nil, errA, Err.multi [errB, errC], Err.nil]).2 = m.Slice :=
  ⟨rfl, (Slice_Merge_contents [Err.nil, errA, Err.multi [errB, errC], Err.nil]).2.1
    (by decide)⟩

/-- Claim C13 as stated fails: for a collector holding an aggregate whose one constituent
is an aggregate of two, Merge returns that inner aggregate as the sole element left,
while the collector holds the inner aggregate itself and not its `Slice()`. -/
theorem Slice_Merge_contents_differ_from_returned :
    (Slice.Merge [Err.multi [Err.multi [errA, errB]]]).1
      = (Multierr.mk [errA, errB]).toErr ∧
    (Slice.Merge [Err.multi [Err.multi [errA, errB]]]).2 = [Err.multi [errA, errB]] ∧
    (Slice.Merge [Err.multi [Err.multi [errA, errB]]]).2
      ≠ (Multierr.mk [errA, errB]).Slice :=
  ⟨rfl, rfl, fun h => absurd (congrArg List.length h) (by decide)⟩

/-- Claim C14: for a list `l` of errors that are nil, plain, aggregates produced by Merge
(or the zero-value Multierr) or wrappers of those, the free function `Merge(l...)`
returns the same result as pushing the elements of `l` in order into an empty collector
and calling `Slice.Merge` on it; both ways leave the same contents. -/
theorem Merge_eq_Push_then_Merge (l : List Err) (h : ∀ e ∈ l, WellBuilt e) :
    Merge l = (Slice.Merge (l.foldl Slice.Push [])).1 ∧
    (Slice.Merge l).2 = (Slice.Merge (l.foldl Slice.Push [])).2 := by
  have hi := filtered_idem l h
  unfold Merge
  rw [foldl_Push, List.nil_append, Slice_Merge_eq l, Slice_Merge_eq (filtered l), hi]
  exact ⟨rfl, rfl⟩

/-- An instance of claim C14: a nil, a plain error, a wrapper of an aggregate produced by
Merge, and such an aggregate. -/
theorem Merge_eq_Push_then_Merge_witness :
    Merge [Err.nil, errA, Err.wrap 9 "ctx" (Merge [errB, errC]), Merge [errX, errY]]
      = (Slice.Merge
          (Slice.Push (Slice.Push (Slice.Push (Slice.Push [] Err.nil) errA)
            (Err.wrap 9 "ctx" (Merge [errB, errC]))) (Merge [errX, errY]))).1 :=
  (Merge_eq_Push_then_Merge
    [Err.nil, errA, Err.wrap 9 "ctx" (Merge [errB, errC]), Merge [errX, errY]]
    (by
      intro e he
      simp only [List.mem_cons, List.mem_singleton, List.not_mem_nil, or_false] at he
      rcases he with rfl | rfl | rfl | rfl
      · exact WellBuilt.nil
      · exact WellBuilt.plain _ _
      · exact WellBuilt.wrap _ _ _ (WellBuilt.merged _ (by
          intro e he
          simp only [List.mem_cons, List.mem_singleton, List.not_mem_nil, or_false] at he
          rcases he with rfl | rfl <;> exact WellBuilt.plain _ _))
      · exact WellBuilt.merged _ (by
          intro e he
          simp only [List.mem_cons, List.mem_singleton, List.not_mem_nil, or_false] at he
          rcases he with rfl | rfl <;> exact WellBuilt.plain _ _))).1

/-! ## The list of messages -/

theorem errorsToStringsLoop_eq_messagesOf (s : List Err) (hne : s ≠ []) :
    ∀ (rest : List Err) (a : List String),
      errorsToStringsLoop s rest a = (messagesOf rest).map (fun ms => a ++ ms) := by
  have hs : s.isEmpty = false := by cases s <;> simp_all
  intro rest
  induction rest with
  | nil => intro a; simp [errorsToStringsLoop, messagesOf]
  | cons e rest ih =>
    intro a
    rw [errorsToStringsLoop, messagesOf]
    simp only [hs, Bool.not_false, if_true]
    cases he : e.Error with
    | none => simp
    | some msg =>
      simp only [ih]
      cases messagesOf rest <;> simp

theorem errorsToStrings_eq_messagesOf (s : List Err) : errorsToStrings s = messagesOf s := by
  cases s with
  | nil => rfl
  | cons e rest =>
    unfold errorsToStrings
    rw [errorsToStringsLoop_eq_messagesOf (e :: rest) (by simp)]
    cases messagesOf (e :: rest) <;> simp

theorem messagesOf_eq_some : ∀ (s : List Err) (ms : List String),
    messagesOf s = some ms ↔ List.Forall₂ (fun e msg => e.Error = some msg) s ms
  | [], ms => by
    cases ms <;> simp [messagesOf]
  | e :: rest, ms => by
    rw [messagesOf]
    cases he : e.Error with
    | none =>
      refine ⟨fun h => by simp at h, fun h => ?_⟩
      cases h with
      | cons hhead _ => rw [he] at hhead; simp at hhead
    | some msg =>
      cases hr : messagesOf rest with
      | none =>
        refine ⟨fun h => by simp at h, fun h => ?_⟩
        cases h with
        | cons _ htail =>
          rw [(messagesOf_eq_some rest _).2 htail] at hr
          simp at hr
      | some ms2 =>
        have ih := (messagesOf_eq_some rest ms2).1 hr
        constructor
        · intro h
          simp only [Option.some.injEq] at h
          subst h
          exact List.Forall₂.cons he ih
        · intro h
          cases h with
          | cons hhead htail =>
            rw [he] at hhead
            simp only [Option.some.injEq] at hhead
            subst hhead
            have := (messagesOf_eq_some rest _).2 htail
            rw [hr] at this
            simp only [Option.some.injEq] at this
            subst this
            rfl

theorem has_message_of_not_aggregate (e : Err) (hn : e.isNil = false)
    (ha : e.isAggregate = false) : ∃ msg, e.Error = some msg := by
  cases e with
  | nil => simp [Err.isNil] at hn
  | plain id msg => exact ⟨msg, by rw [Err.Error]⟩
  | wrap id msg inner => exact ⟨msg, by rw [Err.Error]⟩
  | multi s => simp [Err.isAggregate] at ha

theorem messagesOf_exists (s : List Err) (h : ∀ e ∈ s, ∃ msg, e.Error = some msg) :
    ∃ ms, messagesOf s = some ms := by
  induction s with
  | nil => exact ⟨[], rfl⟩
  | cons e rest ih =>
    obtain ⟨msg, he⟩ := h e (List.mem_cons_self _ _)
    obtain ⟨ms, hr⟩ := ih (fun x hx => h x (List.mem_cons_of_mem _ hx))
    exact ⟨msg :: ms, by rw [messagesOf, he, hr]⟩

/-- Claim C15, at the failing input: the sequence of the aggregate below holds no nil
element, so the claim has `Strings()` return one message.  Its one constituent is an
aggregate that owns a nil; the guard of `errorsToStrings` tests the slice and not the
element, so it lets `Error` be called on that nil, the call panics, and with it
`Error()` of the constituent and `Strings()` of the aggregate. -/
theorem Multierr_Strings_panics_on_inner_nil :
    (∀ e ∈ (Multierr.mk [Err.multi [Err.nil]]).Slice, e.isNil = false) ∧
    errorsToStrings [Err.nil] = none ∧
    (Err.multi [Err.nil]).Error = none ∧
    (Multierr.mk [Err.multi [Err.nil]]).Strings = none :=
  ⟨by
    intro e he
    simp only [Multierr.Slice, List.mem_singleton] at he
    rw [he]
    rfl, rfl, rfl, rfl⟩

/-! ## The sentinel and the dispatch on the verb -/

/-- Claim C16: for an aggregate whose owned sequence is empty, such as the zero-value
Multierr, `Error()` and the expanded rendering (verb v with the plus flag) both produce
exactly the sentinel "<empty error slice>", with no count header and no newline. -/
theorem Multierr_empty_sentinel (quote : String → String) (m : Multierr) (state : State)
    (hempty : m.s = []) (hplus : state.Flag '+' = true) :
    m.Error = some "<empty error slice>" ∧
    m.toErr.Error = some "<empty error slice>" ∧
    m.Format quote state 'v' = some (state.write "<empty error slice>") := by
  have hs : m.Strings = some [] := by
    unfold Multierr.Strings
    rw [hempty]
    rfl
  have he : m.Error = some "<empty error slice>" := by
    unfold Multierr.Error
    rw [hs]
    rfl
  refine ⟨he, ?_, ?_⟩
  · rw [Multierr.toErr, Err_Error_multi]
    exact he
  · unfold Multierr.Format
    rw [hs]
    simp [hplus]

/-- An instance of claim C16: the zero-value Multierr. -/
theorem Multierr_empty_sentinel_witness :
    (Multierr.mk []).Error = some "<empty error slice>" ∧
    (Multierr.mk []).toErr.Error = some "<empty error slice>" ∧
    (Multierr.mk []).Format quotePlain (State.mk ['+'] "") 'v'
      = some (State.mk ['+'] "<empty error slice>") :=
  Multierr_empty_sentinel quotePlain (Multierr.mk []) (State.mk ['+'] "") rfl rfl

/-- Claim C17: when `Error()` returns the string `msg`, `Format` with verb s, or with verb
v without the plus flag, writes exactly `msg`, and with verb q it writes exactly the
quoted form of `msg`. -/
theorem Multierr_Format_single_line (quote : String → String) (m : Multierr) (state : State)
    (msg : String) (hmsg : m.Error = some msg) :
    m.Format quote state 's' = some (state.write msg) ∧
    (state.Flag '+' = false → m.Format quote state 'v' = some (state.write msg)) ∧
    m.Format quote state 'q' = some (state.write (quote msg)) := by
  refine ⟨?_, fun hplus => ?_, ?_⟩
  · unfold Multierr.Format
    rw [hmsg]
    simp
  · unfold Multierr.Format
    rw [hmsg]
    simp [hplus]
  · unfold Multierr.Format
    rw [hmsg]
    simp

/-- An instance of claim C17: the aggregate with messages x and y. -/
theorem Multierr_Format_single_line_witness :
    (Multierr.mk [errX, errY]).Format quotePlain (State.mk [] "") 's'
      = some (State.mk [] "2 errors: x; y") ∧
    ((State.mk [] "").Flag '+' = false →
      (Multierr.mk [errX, errY]).Format quotePlain (State.mk [] "") 'v'
        = some (State.mk [] "2 errors: x; y")) ∧
    (Multierr.mk [errX, errY]).Format quotePlain (State.mk [] "") 'q'
      = some (State.mk [] "\"2 errors: x; y\"") :=
  Multierr_Format_single_line quotePlain (Multierr.mk [errX, errY]) (State.mk [] "")
    "2 errors: x; y" rfl

theorem Multierr_Format_expanded (quote : String → String) (m : Multierr) (state : State)
    (hplus : state.Flag '+' = true) :
    m.Format quote state 'v'
      = m.Strings.map (fun a => state.write (expandedRendering a)) := by
  unfold Multierr.Format
  cases hs : m.Strings with
  | none => simp [hplus]
  | some a =>
    cases a with
    | nil => simp [hplus, expandedRendering]
    | cons x rest =>
      simp only [hplus, and_self, or_true, if_true, List.length_cons,
        Nat.add_one_ne_zero, if_false, Option.map_some', expandedRendering, formatLoop_eq,
        State_write_write, List.enum, reduceCtorEq]
      by_cases h1 : rest.length + 1 = 1
      · simp only [h1, if_true]
        rfl
      · have hs : ∀ t : String, t ++ " error" ++ "s" ++ ":\n" = t ++ " errors:\n" :=
          fun t => by
            rw [String.append_assoc, String.append_assoc]
            rfl
        simp only [h1, if_false, hs]

/-- Claim C18: `Format` gives the expanded multi-line rendering only for the verb v with
the plus flag set; the verbs s and q give the single-line form whatever the flags, the
plus flag included, and so does v without the plus flag; for every verb other than s, q
and v it writes nothing at all, whatever the aggregate holds. -/
theorem Multierr_Format_dispatch (quote : String → String) (m : Multierr) (state : State)
    (verb : Char) :
    (verb ≠ 's' → verb ≠ 'q' → verb ≠ 'v' → m.Format quote state verb = some state) ∧
    m.Format quote state 's' = m.Error.map (fun msg => state.write msg) ∧
    m.Format quote state 'q' = m.Error.map (fun msg => state.write (quote msg)) ∧
    (state.Flag '+' = false →
      m.Format quote state 'v' = m.Error.map (fun msg => state.write msg)) ∧
    (state.Flag '+' = true →
      m.Format quote state 'v'
        = m.Strings.map (fun a => state.write (expandedRendering a))) := by
  refine ⟨fun h1 h2 h3 => ?_, ?_, ?_, fun hplus => ?_,
    fun hplus => Multierr_Format_expanded quote m state hplus⟩
  · unfold Multierr.Format
    simp [h1, h2, h3]
  · unfold Multierr.Format
    cases m.Error <;> simp
  · unfold Multierr.Format
    cases m.Error <;> simp
  · unfold Multierr.Format
    cases m.Error <;> simp [hplus]

/-- An instance of claim C18: the verb d writes nothing even for an aggregate holding a
nil, and the verb s with the plus flag gives the single-line form. -/
theorem Multierr_Format_dispatch_witness :
    (Multierr.mk [Err.nil]).Format quotePlain (State.mk ['+'] "") 'd'
      = some (State.mk ['+'] "") ∧
    (Multierr.mk [errX, errY]).Format quotePlain (State.mk ['+'] "") 's'
      = some (State.mk ['+'] "2 errors: x; y") :=
  ⟨(Multierr_Format_dispatch quotePlain (Multierr.mk [Err.nil]) (State.mk ['+'] "") 'd').1
      (by decide) (by decide) (by decide),
    (Multierr_Format_dispatch quotePlain (Multierr.mk [errX, errY])
      (State.mk ['+'] "") 's').2.1⟩

/-! ## The message of an aggregate that Merge returns -/

theorem wellBuilt_merge_aggregate (s : Slice) (m : Multierr) (h : ∀ e ∈ s, WellBuilt e)
    (hret : (Slice.Merge s).1 = m.toErr) :
    m.s = filtered s ∧ 2 ≤ (filtered s).length := by
  have hp := filtered_wellBuilt_plain s h
  rw [Slice_Merge_eq] at hret
  simp only [Multierr.toErr] at hret
  match hF : filtered s with
  | [] => rw [hF] at hret; simp [mergeShape] at hret
  | [e] =>
    rw [hF] at hret
    have he : IsPlain e := hp e (by simp [hF])
    simp only [mergeShape] at hret
    rw [hret] at he
    simpa [Err.isAggregate] using plain_not_aggregate he
  | e₁ :: e₂ :: rest =>
    rw [hF] at hret
    simp only [mergeShape, Err.multi.injEq] at hret
    exact ⟨hret.symm, by simp⟩

theorem errorMessage_plural (ms : List String) (h : 2 ≤ ms.length) :
    errorMessage ms
      = toString ms.length ++ " errors: " ++ String.intercalate "; " ms := by
  have h0 : ms.length ≠ 0 := by omega
  have h1 : ms.length ≠ 1 := by omega
  have hs : ∀ t : String, t ++ " error" ++ "s" ++ ": " = t ++ " errors: " := fun t => by
    rw [String.append_assoc, String.append_assoc]
    rfl
  simp only [errorMessage, h0, h1, if_false, hs]

theorem expandedRendering_plural (ms : List String) (h : 2 ≤ ms.length) :
    expandedRendering ms
      = toString ms.length ++ " errors:\n" ++
        ((ms.enum.map (fun p => "\terror " ++ toString (p.1 + 1) ++ ": " ++ p.2 ++ "\n")).foldr
          (fun x y => x ++ y) "") := by
  have h0 : ms ≠ [] := by
    intro hnil
    rw [hnil] at h
    simp at h
  have h1 : ms.length ≠ 1 := by omega
  simp only [expandedRendering, h0, h1, if_false]

/-- Claim C19: for a collector whose aggregate elements, direct or wrapped, were produced
by Merge or are the zero-value Multierr, an aggregate that `Slice.Merge` returns never
reaches the sentinel branch or the singular branch of `Error()` and of the expanded
rendering: with N the number of errors in the collector after Merge, N is at least 2,
`Strings()` returns N messages without calling `Error` on a nil, the message is the
decimal N, " errors: " and the joined messages, and the expanded rendering starts with the
decimal N and " errors:". -/
theorem Slice_Merge_aggregate_message (quote : String → String) (state : State) (s : Slice)
    (m : Multierr) (h : ∀ e ∈ s, WellBuilt e) (hret : (Slice.Merge s).1 = m.toErr)
    (hplus : state.Flag '+' = true) :
    2 ≤ (Slice.Merge s).2.length ∧
    (∀ e ∈ m.Slice, e.isNil = false) ∧
    ∃ ms : List String,
      m.Strings = some ms ∧
      ms.length = (Slice.Merge s).2.length ∧ ms.length ≠ 0 ∧ ms.length ≠ 1 ∧
      m.Error = some (toString (Slice.Merge s).2.length ++ " errors: " ++
        String.intercalate "; " ms) ∧
      m.Format quote state 'v' = some (state.write
        (toString (Slice.Merge s).2.length ++ " errors:\n" ++
          ((ms.enum.map
            (fun p => "\terror " ++ toString (p.1 + 1) ++ ": " ++ p.2 ++ "\n")).foldr
            (fun x y => x ++ y) ""))) := by
  obtain ⟨hm, h2⟩ := wellBuilt_merge_aggregate s m h hret
  have hp := filtered_wellBuilt_plain s h
  have hall : ∀ e ∈ m.s, ∃ msg, e.Error = some msg := by
    intro e he
    rw [hm] at he
    exact has_message_of_not_aggregate e (hp e he).1 (plain_not_aggregate (hp e he))
  obtain ⟨ms, hms⟩ := messagesOf_exists m.s hall
  have hlen : ms.length = (filtered s).length := by
    rw [← hm]
    exact ((messagesOf_eq_some m.s ms).1 hms).length_eq.symm
  have hstr : m.Strings = some ms := by
    unfold Multierr.Strings
    rw [errorsToStrings_eq_messagesOf, hms]
  rw [Slice_Merge_eq]
  refine ⟨h2, ?_, ms, hstr, hlen, by omega, by omega, ?_, ?_⟩
  · intro e he
    simp only [Multierr.Slice, hm] at he
    exact (hp e he).1
  · unfold Multierr.Error
    rw [hstr]
    simp only
    rw [errorMessage_plural ms (by omega), hlen]
  · rw [Multierr_Format_expanded quote m state hplus, hstr]
    simp only [Option.map_some']
    rw [expandedRendering_plural ms (by omega), hlen]

/-- An instance of claim C19: a collector holding an aggregate produced by Merge and a
plain error. -/
theorem Slice_Merge_aggregate_message_witness :
    2 ≤ (Slice.Merge [Merge [errA, errB], errC]).2.length ∧
    (∀ e ∈ (Multierr.mk [errA, errB, errC]).Slice, e.isNil = false) ∧
    ∃ ms : List String,
      (Multierr.mk [errA, errB, errC]).Strings = some ms ∧
      ms.length = (Slice.Merge [Merge [errA, errB], errC]).2.length ∧
      ms.length ≠ 0 ∧ ms.length ≠ 1 ∧
      (Multierr.mk [errA, errB, errC]).Error
        = some (toString (Slice.Merge [Merge [errA, errB], errC]).2.length ++ " errors: " ++
          String.intercalate "; " ms) ∧
      (Multierr.mk [errA, errB, errC]).Format quotePlain (State.mk ['+'] "") 'v'
        = some ((State.mk ['+'] "").write
          (toString (Slice.Merge [Merge [errA, errB], errC]).2.length ++ " errors:\n" ++
            ((ms.enum.map
              (fun p => "\terror " ++ toString (p.1 + 1) ++ ": " ++ p.2 ++ "\n")).foldr
              (fun x y => x ++ y) ""))) :=
  Slice_Merge_aggregate_message quotePlain (State.mk ['+'] "") [Merge [errA, errB], errC]
    (Multierr.mk [errA, errB, errC])
    (by
      intro e he
      simp only [List.mem_cons, List.mem_singleton, List.not_mem_nil, or_false] at he
      rcases he with rfl | rfl
      · exact WellBuilt.merged _ (by
          intro e he
          simp only [List.mem_cons, List.mem_singleton, List.not_mem_nil, or_false] at he
          rcases he with rfl | rfl <;> exact WellBuilt.plain _ _)
      · exact WellBuilt.plain _ _)
    rfl rfl

end Errutil
